import Mathlib

/-!
Verification of the size/offset cache core of the `virtua` virtual scroller
(`src/core/cache.ts`).

The TypeScript code is shallowly embedded: JS numbers become `ℚ`, array indices
become `Nat`, JS arrays become `List ℚ`, and each mutating function returns the
updated `Cache` record explicitly.  The `while` loops of `computeOffset`,
`findIndex` and `appendCache` are embedded as structurally-recursive functions;
where the loop counts down an amount known at the call site, the recursion is
on that count and the loop guard is kept inside the body, so the embedded
function computes exactly the iterations of the source loop.

The helpers `min`, `clamp` and `median` are imported from `src/core/utils.ts`,
which is not part of the sources at hand: `min`/`clamp` are the usual
numeric minimum and clamping (spec section 4.2, "Result is clamped to
[0, length-1]") and are rendered with `Nat.min` (clamping below by 0 is
automatic on `Nat`); `median` is modelled from the spec below.
-/

namespace Virtua

/-- Sentinel marking an unmeasured size (source: `export const UNCACHED = -1`). -/
def UNCACHED : ℚ := -1

/-- The store state (source type `Cache`). -/
structure Cache where
  _defaultItemSize : ℚ
  _length : Nat
  _sizes : List ℚ
  _measuredOffsetIndex : Nat
  _offsets : List ℚ

/-- Effective size of index `k` given a default size and the sizes record:
the measured size unless it is `UNCACHED`, else the default. -/
def effSize (defaultItemSize : ℚ) (sizes : List ℚ) (k : Nat) : ℚ :=
  let size := sizes.getD k UNCACHED
  if size = UNCACHED then defaultItemSize else size

/-- Source `getItemSize`. -/
def getItemSize (cache : Cache) (index : Nat) : ℚ :=
  effSize cache._defaultItemSize cache._sizes index

/-- Source `setItemSize`; the returned `Bool` is `isInitialMeasurement`. -/
def setItemSize (cache : Cache) (index : Nat) (size : ℚ) : Bool × Cache :=
  let isInitialMeasurement := cache._sizes.getD index UNCACHED = UNCACHED
  (isInitialMeasurement,
   { cache with
       _sizes := cache._sizes.set index size,
       _measuredOffsetIndex := min index cache._measuredOffsetIndex })

/-- The `while (i < index)` loop of source `computeOffset`: walks `i` up to
`index`, accumulating item sizes into `top` and writing each new offset.
The first argument is the iteration count `index - i`; the guard `i < index`
is kept, so extra fuel is harmless. -/
def computeOffsetGo (cache : Cache) (index : Nat) : Nat → Nat → ℚ → List ℚ → ℚ × List ℚ
  | 0, _, top, offs => (top, offs)
  | n+1, i, top, offs =>
    if i < index then
      let top' := top + getItemSize cache i
      computeOffsetGo cache index n (i+1) top' (offs.set (i+1) top')
    else (top, offs)

/-- Source `computeOffset`: cached read when `index ≤ measuredOffsetIndex`,
otherwise forward extension from the watermark, advancing it to `index`. -/
def computeOffset (cache : Cache) (index : Nat) : ℚ × Cache :=
  if cache._length = 0 then (0, cache)
  else if index ≤ cache._measuredOffsetIndex then
    (cache._offsets.getD index 0, cache)
  else
    let r := computeOffsetGo cache index (index - cache._measuredOffsetIndex)
      cache._measuredOffsetIndex (cache._offsets.getD cache._measuredOffsetIndex 0)
      cache._offsets
    (r.1, { cache with _offsets := r.2, _measuredOffsetIndex := index })

/-- Source `computeTotalSize`. -/
def computeTotalSize (cache : Cache) : ℚ × Cache :=
  if cache._length = 0 then (0, cache)
  else
    let r := computeOffset cache (cache._length - 1)
    (r.1 + getItemSize r.2 (cache._length - 1), r.2)

/-- The forward (`distance ≥ 0`) scan loop of source `findIndex`.  The fuel
argument only bounds the recursion; the source loop guard `i < length - 1`
is kept, so any fuel of at least `length` reproduces the loop exactly. -/
def findIndexFwd (cache : Cache) (distance : ℚ) : Nat → Nat → ℚ → Nat
  | 0, i, _ => i
  | n+1, i, sum =>
    if i < cache._length - 1 then
      let h := getItemSize cache i
      let sum' := sum + h
      if sum' ≥ distance then
        if sum' - h / 2 ≥ distance then i else i + 1
      else findIndexFwd cache distance n (i+1) sum'
    else i

/-- The backward (`distance < 0`) scan loop of source `findIndex`; the scan
index itself decreases, so the recursion is on it (the source guard `i > 0`
is the pattern split). -/
def findIndexBwd (cache : Cache) (distance : ℚ) : Nat → ℚ → Nat
  | 0, _ => 0
  | i+1, sum =>
    let h := getItemSize cache i
    let sum' := sum - h
    if sum' ≤ distance then
      if sum' + h / 2 < distance then i + 1 else i
    else findIndexBwd cache distance i sum'

/-- Source `findIndex`: directional scan plus the final
`clamp(i, 0, length - 1)` (the lower clamp is automatic on `Nat`). -/
def findIndex (cache : Cache) (i : Nat) (distance : ℚ) : Nat :=
  let r := if 0 ≤ distance then findIndexFwd cache distance cache._length i 0
           else findIndexBwd cache distance i 0
  min r (cache._length - 1)

/-- Source `findStartIndexWithOffset` (side-effects the cache through
`computeOffset`). -/
def findStartIndexWithOffset (cache : Cache) (offset : ℚ) (initialIndex : Nat) :
    Nat × Cache :=
  let r := computeOffset cache initialIndex
  (findIndex r.2 initialIndex (offset - r.1), r.2)

/-- Source `computeRange`. -/
def computeRange (cache : Cache) (scrollOffset : ℚ) (prevStartIndex : Nat)
    (viewportSize : ℚ) : (Nat × Nat) × Cache :=
  let r := findStartIndexWithOffset cache scrollOffset
    (min prevStartIndex (cache._length - 1))
  ((r.1, findIndex r.2 r.1 viewportSize), r.2)

/-- Source `hasUnmeasuredItemsInRange` (`slice(start, end + 1)` is
drop-then-take). -/
def hasUnmeasuredItemsInRange (cache : Cache) (startIndex endIndex : Nat) : Bool :=
  decide (UNCACHED ∈ (cache._sizes.drop startIndex).take (endIndex + 1 - startIndex))

/-- Modelled from the spec: the helper `median` lives in `src/core/utils.ts`,
which is not among the sources at hand.  Per the spec ("otherwise use the
median of measured sizes") it is the middle element — position `length / 2` —
of the list sorted ascending. -/
def median (l : List ℚ) : ℚ :=
  (List.insertionSort (· ≤ ·) l).getD (l.length / 2) 0

/-- Source `estimateDefaultItemSize`. -/
def estimateDefaultItemSize (cache : Cache) : Cache :=
  let measuredSizes := cache._sizes.filter (fun s => decide (s ≠ UNCACHED))
  let startItemSize := measuredSizes.getD 0 0
  { cache with
      _defaultItemSize :=
        if measuredSizes.all (fun s => decide (s = startItemSize)) then startItemSize
        else median measuredSizes }

/-- The `for` loop of source `appendCache`: run `length - cache._length`
times from `i = cache._length`, pushing (or unshifting, when prepending)
`UNCACHED` sizes and pushing offsets (`0` for the very first entry). -/
def appendCacheGo (prepend : Bool) : Nat → Nat → List ℚ → List ℚ → List ℚ × List ℚ
  | 0, _, sizes, offsets => (sizes, offsets)
  | n+1, i, sizes, offsets =>
    appendCacheGo prepend n (i+1)
      (if prepend then UNCACHED :: sizes else sizes ++ [UNCACHED])
      (offsets ++ [if i = 0 then (0:ℚ) else UNCACHED])

/-- Source `appendCache`. -/
def appendCache (cache : Cache) (length : Nat) (prepend : Bool) : Cache :=
  let r := appendCacheGo prepend (length - cache._length) cache._length
    cache._sizes cache._offsets
  { cache with _sizes := r.1, _offsets := r.2, _length := length }

/-- Source `initCache` (`appendCache` is called without `prepend`). -/
def initCache (length : Nat) (itemSize : ℚ) : Cache :=
  appendCache
    { _defaultItemSize := itemSize, _length := 0, _measuredOffsetIndex := 0,
      _sizes := [], _offsets := [] } length false

/-- Source `updateCacheLength`.  `splice(0, -diff)` removes (and returns) the
first `-diff` entries; `splice(diff)` with `diff < 0` removes (and returns)
the suffix from position `length`; `offsets.splice(diff)` truncates to the
first `length` entries.  `clamp(length - 1, 0, moi)` is `min (length - 1) moi`
on `Nat`. -/
def updateCacheLength (cache : Cache) (length : Nat) (isShift : Bool) :
    (ℚ × Bool) × Cache :=
  let isRemove := length < cache._length
  let step :=
    if isRemove then
      let removed := if isShift then cache._sizes.take (cache._length - length)
                     else cache._sizes.drop length
      let shift := removed.foldl
        (fun acc r => acc + (if r = UNCACHED then cache._defaultItemSize else r)) 0
      (shift,
       { cache with
           _sizes := if isShift then cache._sizes.drop (cache._length - length)
                     else cache._sizes.take length,
           _offsets := cache._offsets.take length })
    else
      (cache._defaultItemSize * ((length : ℚ) - (cache._length : ℚ)),
       appendCache cache length isShift)
  ((step.1, isRemove),
   { step.2 with
       _measuredOffsetIndex :=
         if isShift then 0 else min (length - 1) cache._measuredOffsetIndex,
       _length := length })

/-- Specification-side prefix sum: `prefixSum d sizes i = Σ_{k<i} effSize d sizes k`. -/
def prefixSum (d : ℚ) (sizes : List ℚ) : Nat → ℚ
  | 0 => 0
  | i+1 => prefixSum d sizes i + effSize d sizes i

/-- States reachable from `initCache` by the public operations, called with
valid arguments (in-range indices, positive measured sizes and initial size). -/
inductive Reachable : Cache → Prop where
  | init (n : Nat) (s : ℚ) (hs : 0 < s) : Reachable (initCache n s)
  | set (c : Cache) (i : Nat) (v : ℚ) (hc : Reachable c) (hi : i < c._length)
      (hv : 0 < v) : Reachable (setItemSize c i v).2
  | offset (c : Cache) (i : Nat) (hc : Reachable c) (hi : i < c._length) :
      Reachable (computeOffset c i).2
  | total (c : Cache) (hc : Reachable c) : Reachable (computeTotalSize c).2
  | range (c : Cache) (so : ℚ) (p : Nat) (v : ℚ) (hc : Reachable c) :
      Reachable (computeRange c so p v).2
  | update (c : Cache) (n : Nat) (b : Bool) (hc : Reachable c) :
      Reachable (updateCacheLength c n b).2

/-- The structural invariant of a store: the records have length `_length`,
the watermark stays within `[0, length-1]` (`≤ length - 1` on `Nat`; it is `0`
for an empty store), and every offset entry at or below the watermark is the
prefix sum of effective sizes. -/
structure CacheInv (c : Cache) : Prop where
  sizes_len : c._sizes.length = c._length
  offsets_len : c._offsets.length = c._length
  moi_le : c._measuredOffsetIndex ≤ c._length - 1
  offsets_eq : ∀ i, i ≤ c._measuredOffsetIndex → i < c._length →
    c._offsets.getD i 0 = prefixSum c._defaultItemSize c._sizes i

/-! ### List access helpers -/

theorem getD_set_self (l : List ℚ) (j : Nat) (v d : ℚ) (h : j < l.length) :
    (l.set j v).getD j d = v := by
  simp [List.getD_eq_getElem?_getD, List.getElem?_set_self h]

theorem getD_set_ne (l : List ℚ) (j k : Nat) (v d : ℚ) (h : j ≠ k) :
    (l.set j v).getD k d = l.getD k d := by
  simp [List.getD_eq_getElem?_getD, List.getElem?_set_ne h]

theorem getD_append_left (l l' : List ℚ) (k : Nat) (d : ℚ) (h : k < l.length) :
    (l ++ l').getD k d = l.getD k d :=
  List.getD_append l l' d k h

theorem getD_take (l : List ℚ) (n k : Nat) (d : ℚ) (h : k < n) :
    (l.take n).getD k d = l.getD k d := by
  simp [List.getD_eq_getElem?_getD, List.getElem?_take, h]

theorem getD_drop (l : List ℚ) (n k : Nat) (d : ℚ) :
    (l.drop n).getD k d = l.getD (n + k) d := by
  simp [List.getD_eq_getElem?_getD, List.getElem?_drop]

/-! ### Prefix sums of effective sizes -/

theorem prefixSum_congr (d : ℚ) (s₁ s₂ : List ℚ) :
    ∀ j, (∀ k, k < j → effSize d s₁ k = effSize d s₂ k) →
      prefixSum d s₁ j = prefixSum d s₂ j := by
  intro j
  induction j with
  | zero => intro _; rfl
  | succ j ih =>
    intro h
    simp only [prefixSum]
    rw [ih (fun k hk => h k (Nat.lt_succ_of_lt hk)), h j (Nat.lt_succ_self j)]

theorem effSize_set_ne (d : ℚ) (sizes : List ℚ) (i k : Nat) (v : ℚ) (h : i ≠ k) :
    effSize d (sizes.set i v) k = effSize d sizes k := by
  simp only [effSize, getD_set_ne sizes i k v UNCACHED h]

theorem effSize_append_left (d : ℚ) (sizes ext : List ℚ) (k : Nat) (h : k < sizes.length) :
    effSize d (sizes ++ ext) k = effSize d sizes k := by
  simp only [effSize, getD_append_left sizes ext k UNCACHED h]

theorem effSize_take (d : ℚ) (sizes : List ℚ) (n k : Nat) (h : k < n) :
    effSize d (sizes.take n) k = effSize d sizes k := by
  simp only [effSize, getD_take sizes n k UNCACHED h]

/-! ### Closed forms of the `appendCache` loop -/

theorem appendCacheGo_false_eq :
    ∀ (n i : Nat) (sizes offsets : List ℚ),
      appendCacheGo false n i sizes offsets =
        (sizes ++ List.replicate n UNCACHED,
         offsets ++ (List.range' i n).map (fun j => if j = 0 then (0:ℚ) else UNCACHED)) := by
  intro n
  induction n with
  | zero => intro i sizes offsets; simp [appendCacheGo]
  | succ n ih =>
    intro i sizes offsets
    rw [appendCacheGo, ih, List.range'_succ]
    simp [List.replicate_succ]

theorem appendCacheGo_true_eq :
    ∀ (n i : Nat) (sizes offsets : List ℚ),
      appendCacheGo true n i sizes offsets =
        (List.replicate n UNCACHED ++ sizes,
         offsets ++ (List.range' i n).map (fun j => if j = 0 then (0:ℚ) else UNCACHED)) := by
  intro n
  induction n with
  | zero => intro i sizes offsets; simp [appendCacheGo]
  | succ n ih =>
    intro i sizes offsets
    have hrep : List.replicate n UNCACHED ++ (UNCACHED :: sizes)
        = List.replicate (n+1) UNCACHED ++ sizes := by
      rw [List.replicate_succ']
      simp
    rw [appendCacheGo, ih, List.range'_succ]
    simp [hrep]

/-! ### The `computeOffset` extension loop -/

theorem computeOffsetGo_spec (c : Cache) (index : Nat) :
    ∀ (n i : Nat) (top : ℚ) (offs : List ℚ),
      i ≤ index → index ≤ i + n → index < offs.length →
      top = prefixSum c._defaultItemSize c._sizes i →
      offs.getD i 0 = top →
      (computeOffsetGo c index n i top offs).1
          = prefixSum c._defaultItemSize c._sizes index ∧
      (computeOffsetGo c index n i top offs).2.length = offs.length ∧
      (∀ j, j < i ∨ index < j →
        (computeOffsetGo c index n i top offs).2.getD j 0 = offs.getD j 0) ∧
      (∀ j, i ≤ j → j ≤ index →
        (computeOffsetGo c index n i top offs).2.getD j 0
          = prefixSum c._defaultItemSize c._sizes j) := by
  intro n
  induction n with
  | zero =>
    intro i top offs h1 h2 h3 h4 h5
    have hie : i = index := by omega
    subst hie
    rw [show computeOffsetGo c i 0 i top offs = (top, offs) from rfl]
    refine ⟨h4, rfl, fun j _ => rfl, fun j hj1 hj2 => ?_⟩
    have hj : j = i := by omega
    subst hj
    exact h5.trans h4
  | succ n ih =>
    intro i top offs h1 h2 h3 h4 h5
    rw [computeOffsetGo]
    by_cases hlt : i < index
    · rw [if_pos hlt]
      have hlen : i + 1 < offs.length := by omega
      have hrec := ih (i+1) (top + getItemSize c i)
        (offs.set (i+1) (top + getItemSize c i)) (by omega) (by omega)
        (by rw [List.length_set]; exact h3)
        (by rw [h4]; rfl)
        (getD_set_self offs (i+1) (top + getItemSize c i) 0 hlen)
      refine ⟨hrec.1, hrec.2.1.trans (List.length_set offs (i+1) _), ?_, ?_⟩
      · intro j hj
        rw [hrec.2.2.1 j (by omega), getD_set_ne offs (i+1) j _ 0 (by omega)]
      · intro j hj1 hj2
        rcases Nat.eq_or_lt_of_le hj1 with hji | hji
        · rw [hrec.2.2.1 j (Or.inl (by omega)),
            getD_set_ne offs (i+1) j _ 0 (by omega), ← hji, h5, h4]
        · exact hrec.2.2.2 j hji hj2
    · rw [if_neg hlt]
      have hie : i = index := by omega
      subst hie
      refine ⟨h4, rfl, fun j _ => rfl, fun j hj1 hj2 => ?_⟩
      have hj : j = i := by omega
      subst hj
      exact h5.trans h4

/-- After the loop, the entry written at `index` is exactly the returned
running total (no well-formedness of the previous offsets needed). -/
theorem computeOffsetGo_last (c : Cache) (index : Nat) :
    ∀ (n i : Nat) (top : ℚ) (offs : List ℚ),
      i ≤ index → index ≤ i + n → index < offs.length →
      offs.getD i 0 = top →
      (computeOffsetGo c index n i top offs).2.getD index 0
          = (computeOffsetGo c index n i top offs).1 ∧
      (computeOffsetGo c index n i top offs).2.length = offs.length := by
  intro n
  induction n with
  | zero =>
    intro i top offs h1 h2 h3 h5
    have hie : i = index := by omega
    subst hie
    rw [show computeOffsetGo c i 0 i top offs = (top, offs) from rfl]
    exact ⟨h5, rfl⟩
  | succ n ih =>
    intro i top offs h1 h2 h3 h5
    rw [computeOffsetGo]
    by_cases hlt : i < index
    · rw [if_pos hlt]
      have hlen : i + 1 < offs.length := by omega
      have hrec := ih (i+1) (top + getItemSize c i)
        (offs.set (i+1) (top + getItemSize c i)) (by omega) (by omega)
        (by rw [List.length_set]; exact h3)
        (getD_set_self offs (i+1) (top + getItemSize c i) 0 hlen)
      exact ⟨hrec.1, hrec.2.trans (List.length_set offs (i+1) _)⟩
    · rw [if_neg hlt]
      have hie : i = index := by omega
      subst hie
      exact ⟨h5, rfl⟩

/-! ### Characterising `computeOffset` and the simple operations -/

theorem computeOffset_else (c : Cache) (i : Nat) (h0 : ¬ c._length = 0)
    (hle : ¬ i ≤ c._measuredOffsetIndex) :
    computeOffset c i =
      ((computeOffsetGo c i (i - c._measuredOffsetIndex) c._measuredOffsetIndex
          (c._offsets.getD c._measuredOffsetIndex 0) c._offsets).1,
       { c with
           _offsets := (computeOffsetGo c i (i - c._measuredOffsetIndex)
             c._measuredOffsetIndex (c._offsets.getD c._measuredOffsetIndex 0)
             c._offsets).2,
           _measuredOffsetIndex := i }) := by
  rw [computeOffset, if_neg h0, if_neg hle]

theorem computeOffset_cached (c : Cache) (i : Nat) (h0 : ¬ c._length = 0)
    (hle : i ≤ c._measuredOffsetIndex) :
    computeOffset c i = (c._offsets.getD i 0, c) := by
  rw [computeOffset, if_neg h0, if_pos hle]

theorem computeOffset_empty (c : Cache) (i : Nat) (h0 : c._length = 0) :
    computeOffset c i = (0, c) := by
  rw [computeOffset, if_pos h0]

/-- On a well-formed store and an in-range index, `computeOffset` returns the
prefix sum of effective sizes, preserves the invariant, leaves default size,
sizes and length untouched, and leaves the watermark at least at `i`. -/
theorem computeOffset_spec (c : Cache) (i : Nat) (hinv : CacheInv c)
    (hi : i < c._length) :
    (computeOffset c i).1 = prefixSum c._defaultItemSize c._sizes i ∧
    CacheInv (computeOffset c i).2 ∧
    (computeOffset c i).2._defaultItemSize = c._defaultItemSize ∧
    (computeOffset c i).2._sizes = c._sizes ∧
    (computeOffset c i).2._length = c._length ∧
    i ≤ (computeOffset c i).2._measuredOffsetIndex := by
  have h0 : ¬ c._length = 0 := by omega
  by_cases hle : i ≤ c._measuredOffsetIndex
  · rw [computeOffset_cached c i h0 hle]
    exact ⟨hinv.offsets_eq i hle hi, hinv, rfl, rfl, rfl, hle⟩
  · rw [computeOffset_else c i h0 hle]
    have hmlt : c._measuredOffsetIndex < c._length := by
      have := hinv.moi_le; omega
    have hilen : i < c._offsets.length := by rw [hinv.offsets_len]; exact hi
    have hgo := computeOffsetGo_spec c i (i - c._measuredOffsetIndex)
      c._measuredOffsetIndex (c._offsets.getD c._measuredOffsetIndex 0) c._offsets
      (by omega) (by omega) hilen
      (hinv.offsets_eq c._measuredOffsetIndex le_rfl hmlt) rfl
    refine ⟨hgo.1, ⟨hinv.sizes_len, hgo.2.1.trans hinv.offsets_len,
      by dsimp only; omega, ?_⟩, rfl, rfl, rfl, le_rfl⟩
    intro j hj hjlen
    dsimp only at hj hjlen
    show (computeOffsetGo c i (i - c._measuredOffsetIndex) c._measuredOffsetIndex
      (c._offsets.getD c._measuredOffsetIndex 0) c._offsets).2.getD j 0
        = prefixSum c._defaultItemSize c._sizes j
    by_cases hjm : j < c._measuredOffsetIndex
    · rw [hgo.2.2.1 j (Or.inl hjm)]
      exact hinv.offsets_eq j (Nat.le_of_lt hjm) hjlen
    · exact hgo.2.2.2 j (by omega) hj

theorem setItemSize_snd (c : Cache) (i : Nat) (v : ℚ) :
    (setItemSize c i v).2 =
      { c with _sizes := c._sizes.set i v,
               _measuredOffsetIndex := min i c._measuredOffsetIndex } := rfl

theorem inv_setItemSize (c : Cache) (i : Nat) (v : ℚ) (hinv : CacheInv c) :
    CacheInv (setItemSize c i v).2 := by
  rw [setItemSize_snd]
  refine ⟨?_, ?_, ?_, ?_⟩
  · show (c._sizes.set i v).length = c._length
    rw [List.length_set]; exact hinv.sizes_len
  · exact hinv.offsets_len
  · show min i c._measuredOffsetIndex ≤ c._length - 1
    exact le_trans (Nat.min_le_right _ _) hinv.moi_le
  · intro j hj hjlen
    show c._offsets.getD j 0 = prefixSum c._defaultItemSize (c._sizes.set i v) j
    have hji : j ≤ i := le_trans hj (Nat.min_le_left _ _)
    have hjm : j ≤ c._measuredOffsetIndex := le_trans hj (Nat.min_le_right _ _)
    rw [hinv.offsets_eq j hjm hjlen]
    exact prefixSum_congr c._defaultItemSize c._sizes (c._sizes.set i v) j
      (fun k hk => (effSize_set_ne c._defaultItemSize c._sizes i k v (by omega)).symm)

/-- `computeOffset` preserves the invariant for every index: out-of-range
indices with a non-empty store are only ever produced via the in-range
clamping of the callers, and the remaining branches do not touch the store. -/
theorem inv_computeOffset (c : Cache) (i : Nat) (hinv : CacheInv c)
    (hi : i < c._length ∨ c._length = 0 ∨ i ≤ c._measuredOffsetIndex) :
    CacheInv (computeOffset c i).2 := by
  by_cases h0 : c._length = 0
  · rw [computeOffset_empty c i h0]; exact hinv
  · by_cases hle : i ≤ c._measuredOffsetIndex
    · rw [computeOffset_cached c i h0 hle]; exact hinv
    · have hi' : i < c._length := by tauto
      exact (computeOffset_spec c i hinv hi').2.1

theorem computeTotalSize_snd (c : Cache) :
    (computeTotalSize c).2 =
      if c._length = 0 then c else (computeOffset c (c._length - 1)).2 := by
  by_cases h0 : c._length = 0
  · rw [computeTotalSize, if_pos h0, if_pos h0]
  · rw [computeTotalSize, if_neg h0, if_neg h0]

theorem inv_computeTotalSize (c : Cache) (hinv : CacheInv c) :
    CacheInv (computeTotalSize c).2 := by
  rw [computeTotalSize_snd]
  by_cases h0 : c._length = 0
  · rw [if_pos h0]; exact hinv
  · rw [if_neg h0]
    exact inv_computeOffset c (c._length - 1) hinv (Or.inl (by omega))

theorem computeRange_snd (c : Cache) (so : ℚ) (p : Nat) (v : ℚ) :
    (computeRange c so p v).2 = (computeOffset c (min p (c._length - 1))).2 := rfl

theorem inv_computeRange (c : Cache) (so : ℚ) (p : Nat) (v : ℚ) (hinv : CacheInv c) :
    CacheInv (computeRange c so p v).2 := by
  rw [computeRange_snd]
  by_cases h0 : c._length = 0
  · exact inv_computeOffset c _ hinv (Or.inr (Or.inl h0))
  · exact inv_computeOffset c _ hinv (Or.inl (by omega))

/-! ### `initCache` -/

theorem initCache_eq (n : Nat) (s : ℚ) :
    initCache n s =
      { _defaultItemSize := s, _length := n,
        _sizes := List.replicate n UNCACHED, _measuredOffsetIndex := 0,
        _offsets := (List.range' 0 n).map
          (fun j => if j = 0 then (0:ℚ) else UNCACHED) } := by
  rw [initCache, appendCache, appendCacheGo_false_eq]
  dsimp only
  simp

theorem inv_initCache (n : Nat) (s : ℚ) : CacheInv (initCache n s) := by
  rw [initCache_eq]
  refine ⟨by simp, by simp, by dsimp only; omega, ?_⟩
  intro j hj hjlen
  dsimp only at hj hjlen
  have hj0 : j = 0 := by omega
  subst hj0
  show ((List.range' 0 n).map (fun j => if j = 0 then (0:ℚ) else UNCACHED)).getD 0 0
    = prefixSum s (List.replicate n UNCACHED) 0
  obtain ⟨m, hm⟩ : ∃ m, n = m + 1 := ⟨n - 1, by omega⟩
  subst hm
  rw [List.range'_succ]
  rfl

/-! ### `appendCache` and `updateCacheLength` -/

theorem appendCache_sizes_false (c : Cache) (n : Nat) :
    (appendCache c n false)._sizes
      = c._sizes ++ List.replicate (n - c._length) UNCACHED := by
  rw [appendCache, appendCacheGo_false_eq]

theorem appendCache_sizes_true (c : Cache) (n : Nat) :
    (appendCache c n true)._sizes
      = List.replicate (n - c._length) UNCACHED ++ c._sizes := by
  rw [appendCache, appendCacheGo_true_eq]

theorem appendCache_offsets (c : Cache) (n : Nat) (b : Bool) :
    (appendCache c n b)._offsets
      = c._offsets ++ (List.range' c._length (n - c._length)).map
          (fun j => if j = 0 then (0:ℚ) else UNCACHED) := by
  cases b
  · rw [appendCache, appendCacheGo_false_eq]
  · rw [appendCache, appendCacheGo_true_eq]

theorem offsets_pattern_head (m : Nat) (hm : 0 < m) :
    ((List.range' 0 m).map
      (fun j => if j = 0 then (0:ℚ) else UNCACHED)).getD 0 0 = 0 := by
  obtain ⟨k, rfl⟩ : ∃ k, m = k + 1 := ⟨m - 1, by omega⟩
  rw [List.range'_succ]
  rfl

theorem prefixSum_zero (d : ℚ) (s : List ℚ) : prefixSum d s 0 = 0 := rfl

theorem updateCacheLength_remove_shift (c : Cache) (n : Nat) (h : n < c._length) :
    updateCacheLength c n true =
      (((c._sizes.take (c._length - n)).foldl
          (fun acc r => acc + (if r = UNCACHED then c._defaultItemSize else r)) 0,
        true),
       { _defaultItemSize := c._defaultItemSize,
         _length := n,
         _sizes := c._sizes.drop (c._length - n),
         _measuredOffsetIndex := 0,
         _offsets := c._offsets.take n }) := by
  rw [updateCacheLength, if_pos h, decide_eq_true h]
  rfl

theorem updateCacheLength_remove_noshift (c : Cache) (n : Nat) (h : n < c._length) :
    updateCacheLength c n false =
      (((c._sizes.drop n).foldl
          (fun acc r => acc + (if r = UNCACHED then c._defaultItemSize else r)) 0,
        true),
       { _defaultItemSize := c._defaultItemSize,
         _length := n,
         _sizes := c._sizes.take n,
         _measuredOffsetIndex := min (n - 1) c._measuredOffsetIndex,
         _offsets := c._offsets.take n }) := by
  rw [updateCacheLength, if_pos h, decide_eq_true h]
  rfl

theorem updateCacheLength_add_shift (c : Cache) (n : Nat) (h : ¬ n < c._length) :
    updateCacheLength c n true =
      ((c._defaultItemSize * ((n : ℚ) - (c._length : ℚ)), false),
       { _defaultItemSize := c._defaultItemSize,
         _length := n,
         _sizes := (appendCache c n true)._sizes,
         _measuredOffsetIndex := 0,
         _offsets := (appendCache c n true)._offsets }) := by
  rw [updateCacheLength, if_neg h, decide_eq_false h]
  rfl

theorem updateCacheLength_add_noshift (c : Cache) (n : Nat) (h : ¬ n < c._length) :
    updateCacheLength c n false =
      ((c._defaultItemSize * ((n : ℚ) - (c._length : ℚ)), false),
       { _defaultItemSize := c._defaultItemSize,
         _length := n,
         _sizes := (appendCache c n false)._sizes,
         _measuredOffsetIndex := min (n - 1) c._measuredOffsetIndex,
         _offsets := (appendCache c n false)._offsets }) := by
  rw [updateCacheLength, if_neg h, decide_eq_false h]
  rfl

theorem inv_updateCacheLength (c : Cache) (n : Nat) (b : Bool) (hinv : CacheInv c) :
    CacheInv (updateCacheLength c n b).2 := by
  have hslen := hinv.sizes_len
  have holen := hinv.offsets_len
  have hmle := hinv.moi_le
  by_cases hrem : n < c._length
  · cases b
    · rw [updateCacheLength_remove_noshift c n hrem]
      refine ⟨?_, ?_, ?_, ?_⟩
      · show (c._sizes.take n).length = n
        rw [List.length_take]; omega
      · show (c._offsets.take n).length = n
        rw [List.length_take]; omega
      · show min (n - 1) c._measuredOffsetIndex ≤ n - 1
        exact Nat.min_le_left _ _
      · intro j hj hjn
        dsimp only at hj hjn ⊢
        have hjm : j ≤ c._measuredOffsetIndex := le_trans hj (Nat.min_le_right _ _)
        have hjlen : j < c._length := by omega
        rw [getD_take c._offsets n j 0 hjn, hinv.offsets_eq j hjm hjlen]
        exact prefixSum_congr c._defaultItemSize c._sizes (c._sizes.take n) j
          (fun k hk => (effSize_take c._defaultItemSize c._sizes n k (by omega)).symm)
    · rw [updateCacheLength_remove_shift c n hrem]
      refine ⟨?_, ?_, ?_, ?_⟩
      · show (c._sizes.drop (c._length - n)).length = n
        rw [List.length_drop]; omega
      · show (c._offsets.take n).length = n
        rw [List.length_take]; omega
      · exact Nat.zero_le _
      · intro j hj hjn
        dsimp only at hj hjn ⊢
        have hj0 : j = 0 := by omega
        subst hj0
        rw [prefixSum_zero, getD_take c._offsets n 0 0 hjn,
          hinv.offsets_eq 0 (Nat.zero_le _) (by omega)]
        exact prefixSum_zero _ _
  · have hofs := appendCache_offsets c n
    cases b
    · rw [updateCacheLength_add_noshift c n hrem]
      refine ⟨?_, ?_, ?_, ?_⟩
      · show (appendCache c n false)._sizes.length = n
        rw [appendCache_sizes_false, List.length_append, List.length_replicate]
        omega
      · show (appendCache c n false)._offsets.length = n
        rw [hofs false, List.length_append, List.length_map, List.length_range']
        omega
      · show min (n - 1) c._measuredOffsetIndex ≤ n - 1
        exact Nat.min_le_left _ _
      · intro j hj hjn
        dsimp only at hj hjn ⊢
        by_cases hl0 : c._length = 0
        · have hj0 : j = 0 := by omega
          subst hj0
          have hoe : c._offsets = [] := List.length_eq_zero.mp (by omega)
          rw [prefixSum_zero, hofs false, hoe, List.nil_append, hl0]
          exact offsets_pattern_head (n - 0) (by omega)
        · have hjm : j ≤ c._measuredOffsetIndex := le_trans hj (Nat.min_le_right _ _)
          have hjlen : j < c._length := by omega
          rw [hofs false, getD_append_left _ _ j 0 (by omega),
            hinv.offsets_eq j hjm hjlen, appendCache_sizes_false]
          exact prefixSum_congr c._defaultItemSize c._sizes _ j
            (fun k hk => (effSize_append_left c._defaultItemSize c._sizes _ k
              (by omega)).symm)
    · rw [updateCacheLength_add_shift c n hrem]
      refine ⟨?_, ?_, ?_, ?_⟩
      · show (appendCache c n true)._sizes.length = n
        rw [appendCache_sizes_true, List.length_append, List.length_replicate]
        omega
      · show (appendCache c n true)._offsets.length = n
        rw [hofs true, List.length_append, List.length_map, List.length_range']
        omega
      · exact Nat.zero_le _
      · intro j hj hjn
        dsimp only at hj hjn ⊢
        have hj0 : j = 0 := by omega
        subst hj0
        rw [prefixSum_zero]
        by_cases hl0 : c._length = 0
        · have hoe : c._offsets = [] := List.length_eq_zero.mp (by omega)
          rw [hofs true, hoe, List.nil_append, hl0]
          exact offsets_pattern_head (n - 0) (by omega)
        · rw [hofs true, getD_append_left _ _ 0 0 (by omega),
            hinv.offsets_eq 0 (Nat.zero_le _) (by omega)]
          exact prefixSum_zero _ _

theorem reachable_inv (c : Cache) (hc : Reachable c) : CacheInv c := by
  induction hc with
  | init n s hs => exact inv_initCache n s
  | set c i v hc hi hv ih => exact inv_setItemSize c i v ih
  | offset c i hc hi ih => exact inv_computeOffset c i ih (Or.inl hi)
  | total c hc ih => exact inv_computeTotalSize c ih
  | range c so p v hc ih => exact inv_computeRange c so p v ih
  | update c n b hc ih => exact inv_updateCacheLength c n b ih

/-! ### `findIndex` scan bounds -/

theorem findIndexFwd_le (c : Cache) (d : ℚ) :
    ∀ (n i : Nat) (s : ℚ), i ≤ c._length - 1 →
      findIndexFwd c d n i s ≤ c._length - 1 := by
  intro n
  induction n with
  | zero => intro i s hi; exact hi
  | succ n ih =>
    intro i s hi
    simp only [findIndexFwd]
    split_ifs with h1 h2 h3
    · exact hi
    · omega
    · exact ih (i+1) (s + getItemSize c i) (by omega)
    · exact hi

theorem findIndexBwd_le (c : Cache) (d : ℚ) :
    ∀ (i : Nat) (s : ℚ), findIndexBwd c d i s ≤ i := by
  intro i
  induction i with
  | zero => intro s; exact le_rfl
  | succ i ih =>
    intro s
    simp only [findIndexBwd]
    split_ifs with h1 h2
    · exact le_rfl
    · omega
    · exact le_trans (ih (s - getItemSize c i)) (by omega)

/-! ### Folding removed sizes is a sum of effective sizes -/

theorem foldl_add_acc (g : ℚ → ℚ) :
    ∀ (l : List ℚ) (a : ℚ),
      l.foldl (fun acc r => acc + g r) a = a + (l.map g).sum := by
  intro l
  induction l with
  | nil => intro a; simp
  | cons x l ih => intro a; simp [ih, add_assoc]

theorem map_sum_getD (g : ℚ → ℚ) :
    ∀ (l : List ℚ),
      (l.map g).sum = ∑ k in Finset.range l.length, g (l.getD k 0) := by
  intro l
  induction l with
  | nil => simp
  | cons x l ih =>
    rw [List.map_cons, List.sum_cons, ih, List.length_cons, Finset.sum_range_succ']
    simp [add_comm]

theorem effSize_getD0 (dd : ℚ) (l : List ℚ) (k : Nat) (h : k < l.length) :
    (if l.getD k 0 = UNCACHED then dd else l.getD k 0) = effSize dd l k := by
  simp only [effSize]
  rw [List.getD_eq_getElem l 0 h, List.getD_eq_getElem l UNCACHED h]

theorem drop_foldl_eff (c : Cache) (n : Nat) (hs : c._sizes.length = c._length)
    (hn : n ≤ c._length) :
    (c._sizes.drop n).foldl
        (fun acc r => acc + (if r = UNCACHED then c._defaultItemSize else r)) 0
      = ∑ k in Finset.Ico n c._length, getItemSize c k := by
  rw [foldl_add_acc, zero_add, map_sum_getD, List.length_drop, hs,
    Finset.sum_Ico_eq_sum_range]
  apply Finset.sum_congr rfl
  intro k hk
  rw [getD_drop]
  have hk' : n + k < c._length := by
    rw [Finset.mem_range] at hk; omega
  rw [effSize_getD0 c._defaultItemSize c._sizes (n+k) (by omega)]
  rfl

/-! ### Claims -/

/-- C1: Prefix-sum cache invariant.  In every state reachable by any sequence
of the operations `initCache`, `setItemSize`, `computeOffset`,
`computeTotalSize`, `computeRange`, `updateCacheLength` (called with valid
arguments), every entry of `offsets` at an index `i ≤ measuredOffsetIndex`
equals `Σ_{k<i} effectiveSize(k)`, where the effective size of `k` is
`sizes[k]` when measured (not `UNCACHED`) and `defaultItemSize` otherwise.
(`offsets` has exactly `length` entries, so its indices satisfy
`i < length`.) -/
theorem C1_prefix_sum_invariant (c : Cache) (hc : Reachable c) (i : Nat)
    (h1 : i ≤ c._measuredOffsetIndex) (h2 : i < c._length) :
    c._offsets.getD i 0 = prefixSum c._defaultItemSize c._sizes i :=
  (reachable_inv c hc).offsets_eq i h1 h2

/-- Witness for C1: after `computeOffset` at index 2 on a fresh 3-item store
with default size 10, the cached offset at index 2 is the prefix sum there. -/
theorem C1_prefix_sum_invariant_witness :
    ((computeOffset (initCache 3 10) 2).2)._offsets.getD 2 0
      = prefixSum ((computeOffset (initCache 3 10) 2).2)._defaultItemSize
          ((computeOffset (initCache 3 10) 2).2)._sizes 2 :=
  C1_prefix_sum_invariant _
    (Reachable.offset (initCache 3 10) 2 (Reachable.init 3 10 (by norm_num))
      (by norm_num [initCache_eq]))
    2
    (by norm_num [initCache_eq, computeOffset, computeOffsetGo, getItemSize,
      effSize, UNCACHED])
    (by norm_num [initCache_eq, computeOffset, computeOffsetGo, getItemSize,
      effSize, UNCACHED])

/-- C2: Invalidation correctness.  On a reachable store, after
`setItemSize i v`, a subsequent `computeOffset j` for any `i ≤ j < length`
returns the prefix sum of effective sizes computed with the updated sizes
record (so the new value `v` is reflected), not a stale cached offset. -/
theorem C2_invalidation (c : Cache) (hc : Reachable c) (i : Nat) (v : ℚ)
    (hi : i < c._length) (hw : i ≤ c._measuredOffsetIndex) (j : Nat)
    (hij : i ≤ j) (hj : j < ((setItemSize c i v).2)._length) :
    (computeOffset (setItemSize c i v).2 j).1
      = prefixSum ((setItemSize c i v).2)._defaultItemSize
          ((setItemSize c i v).2)._sizes j :=
  (computeOffset_spec (setItemSize c i v).2 j
    (inv_setItemSize c i v (reachable_inv c hc)) hj).1

/-- Witness for C2: on a 3-item store with the offsets materialised up to
index 2, overwriting the size at index 1 with 50 makes the next
`computeOffset 2` return the updated prefix sum `10 + 50 = 60`. -/
theorem C2_invalidation_witness :
    (computeOffset (setItemSize (computeOffset (initCache 3 10) 2).2 1 50).2 2).1
      = prefixSum
          ((setItemSize (computeOffset (initCache 3 10) 2).2 1 50).2)._defaultItemSize
          ((setItemSize (computeOffset (initCache 3 10) 2).2 1 50).2)._sizes 2 :=
  C2_invalidation (computeOffset (initCache 3 10) 2).2
    (Reachable.offset (initCache 3 10) 2 (Reachable.init 3 10 (by norm_num))
      (by norm_num [initCache_eq]))
    1 50
    (by norm_num [initCache_eq, computeOffset, computeOffsetGo, getItemSize,
      effSize, UNCACHED])
    (by norm_num [initCache_eq, computeOffset, computeOffsetGo, getItemSize,
      effSize, UNCACHED])
    2 (by norm_num)
    (by norm_num [initCache_eq, computeOffset, computeOffsetGo, setItemSize,
      getItemSize, effSize, UNCACHED])

/-- C3: Range query example.  For a freshly created store of 10 items with
default size 10 (all unmeasured), `computeRange` with scroll offset 25,
previous start index 0 and viewport size 30 returns the pair `(2, 5)`. -/
theorem C3_range_query : (computeRange (initCache 10 10) 25 0 30).1 = (2, 5) := by
  norm_num [initCache, appendCache, appendCacheGo, UNCACHED, computeRange,
    findStartIndexWithOffset, computeOffset, computeOffsetGo, findIndex,
    findIndexFwd, findIndexBwd, getItemSize, effSize]

/-- C4: Shrink compensation.  For every store whose sizes record has `length`
entries, `updateLength(newLength, isPrepend := false)` with
`newLength < length` returns the sum of the effective sizes of the removed
tail items (default size for unmeasured ones) together with
`wasRemoval = true`. -/
theorem C4_shrink_compensation (c : Cache) (n : Nat)
    (hs : c._sizes.length = c._length) (hn : n < c._length) :
    (updateCacheLength c n false).1
      = (∑ k in Finset.Ico n c._length, getItemSize c k, true) := by
  rw [updateCacheLength_remove_noshift c n hn]
  dsimp only
  rw [drop_foldl_eff c n hs (by omega)]

/-- Witness for C4: a store of 5 unmeasured items with default size 10;
`updateLength(3, false)` returns `(20, true)`. -/
theorem C4_shrink_compensation_witness :
    (updateCacheLength (initCache 5 10) 3 false).1 = (20, true) := by
  have h := C4_shrink_compensation (initCache 5 10) 3
    (by norm_num [initCache_eq]) (by norm_num [initCache_eq])
  rw [h]
  norm_num [initCache_eq, getItemSize, effSize, UNCACHED,
    Finset.sum_Ico_eq_sum_range, Finset.sum_range_succ]

/-- C5: Prepend invalidation.  Immediately after
`updateLength(newLength, isPrepend := true)` the watermark
`measuredOffsetIndex` is 0, regardless of whether the call grew or shrank the
store, so any later `computeOffset` at an index `> 0` takes the recomputation
branch (its guard `index ≤ measuredOffsetIndex` fails) instead of reusing
cached offsets. -/
theorem C5_prepend_invalidation (c : Cache) (n : Nat) :
    ((updateCacheLength c n true).2)._measuredOffsetIndex = 0 := by
  by_cases hrem : n < c._length
  · rw [updateCacheLength_remove_shift c n hrem]
  · rw [updateCacheLength_add_shift c n hrem]

/-- C6: Idempotence of offset queries.  On a store whose offsets record has
`length` entries, calling `computeOffset i` twice in a row for `i < length`
with no intervening mutation returns the same value both times and the second
call leaves the entire store state (watermark included) unchanged. -/
theorem C6_idempotent (c : Cache) (i : Nat) (ho : c._offsets.length = c._length)
    (hi : i < c._length) :
    computeOffset (computeOffset c i).2 i = computeOffset c i := by
  have h0 : ¬ c._length = 0 := by omega
  by_cases hle : i ≤ c._measuredOffsetIndex
  · rw [computeOffset_cached c i h0 hle]
    show computeOffset c i = (c._offsets.getD i 0, c)
    exact computeOffset_cached c i h0 hle
  · have hgo := computeOffsetGo_last c i (i - c._measuredOffsetIndex)
      c._measuredOffsetIndex (c._offsets.getD c._measuredOffsetIndex 0) c._offsets
      (by omega) (by omega) (by omega) rfl
    rw [computeOffset_else c i h0 hle]
    set G := computeOffsetGo c i (i - c._measuredOffsetIndex)
      c._measuredOffsetIndex (c._offsets.getD c._measuredOffsetIndex 0)
      c._offsets with hG
    rw [computeOffset_cached
      { c with _offsets := G.2, _measuredOffsetIndex := i } i h0 (Nat.le_refl i)]
    show (G.2.getD i 0,
      ({ c with _offsets := G.2, _measuredOffsetIndex := i } : Cache)) = _
    rw [hgo.1]

/-- Witness for C6: the second `computeOffset 2` on a fresh 4-item store
returns the same value-state pair as the first. -/
theorem C6_idempotent_witness :
    computeOffset (computeOffset (initCache 4 10) 2).2 2
      = computeOffset (initCache 4 10) 2 :=
  C6_idempotent (initCache 4 10) 2 (by norm_num [initCache_eq])
    (by norm_num [initCache_eq])

/-- C7: Default-size estimation policy.  On a store with at least one
measured size, `estimateDefaultItemSize` sets `defaultItemSize` to the common
value when all measured sizes are identical, and otherwise to the median of
the measured sizes (`getD 0 0` of the measured list is its first element,
the reference value the source compares against). -/
theorem C7_estimate_default (c : Cache)
    (hne : c._sizes.filter (fun s => decide (s ≠ UNCACHED)) ≠ []) :
    (∀ v, (∀ x ∈ c._sizes.filter (fun s => decide (s ≠ UNCACHED)), x = v) →
        (estimateDefaultItemSize c)._defaultItemSize = v) ∧
    ((¬ ∀ x ∈ c._sizes.filter (fun s => decide (s ≠ UNCACHED)),
          x = (c._sizes.filter (fun s => decide (s ≠ UNCACHED))).getD 0 0) →
      (estimateDefaultItemSize c)._defaultItemSize
        = median (c._sizes.filter (fun s => decide (s ≠ UNCACHED)))) := by
  have hunf : (estimateDefaultItemSize c)._defaultItemSize
      = if (c._sizes.filter (fun s => decide (s ≠ UNCACHED))).all
            (fun s => decide
              (s = (c._sizes.filter (fun s => decide (s ≠ UNCACHED))).getD 0 0))
            = true
        then (c._sizes.filter (fun s => decide (s ≠ UNCACHED))).getD 0 0
        else median (c._sizes.filter (fun s => decide (s ≠ UNCACHED))) := rfl
  obtain ⟨x, t, hxt⟩ :
      ∃ x t, c._sizes.filter (fun s => decide (s ≠ UNCACHED)) = x :: t := by
    cases hft : c._sizes.filter (fun s => decide (s ≠ UNCACHED)) with
    | nil => exact absurd hft hne
    | cons x t => exact ⟨x, t, rfl⟩
  have hmem : (c._sizes.filter (fun s => decide (s ≠ UNCACHED))).getD 0 0
      ∈ c._sizes.filter (fun s => decide (s ≠ UNCACHED)) := by
    rw [hxt, List.getD_cons_zero]
    exact List.mem_cons_self x t
  constructor
  · intro v hv
    have hhv : (c._sizes.filter (fun s => decide (s ≠ UNCACHED))).getD 0 0 = v :=
      hv _ hmem
    have hcond : (c._sizes.filter (fun s => decide (s ≠ UNCACHED))).all
        (fun s => decide
          (s = (c._sizes.filter (fun s => decide (s ≠ UNCACHED))).getD 0 0))
        = true := by
      rw [List.all_eq_true]
      intro y hy
      rw [decide_eq_true_eq, hv y hy]
      exact hhv.symm
    rw [hunf, if_pos hcond]
    exact hhv
  · intro hnall
    have hcond : ¬ (c._sizes.filter (fun s => decide (s ≠ UNCACHED))).all
        (fun s => decide
          (s = (c._sizes.filter (fun s => decide (s ≠ UNCACHED))).getD 0 0))
        = true := by
      rw [List.all_eq_true]
      intro hall
      apply hnall
      intro y hy
      have := hall y hy
      rwa [decide_eq_true_eq] at this
    rw [hunf, if_neg hcond]

/-- Witness for C7: measured sizes `[10, 10, 10]` give default 10 (the common
value); measured sizes `[10, 1000, 12]` give the median 12. -/
theorem C7_estimate_default_witness :
    (estimateDefaultItemSize
      { _defaultItemSize := 5, _length := 3, _sizes := [10, 10, 10],
        _measuredOffsetIndex := 0, _offsets := [0, -1, -1] })._defaultItemSize
        = 10 ∧
    (estimateDefaultItemSize
      { _defaultItemSize := 5, _length := 3, _sizes := [10, 1000, 12],
        _measuredOffsetIndex := 0, _offsets := [0, -1, -1] })._defaultItemSize
        = 12 := by
  constructor
  · exact (C7_estimate_default _
      (by norm_num [UNCACHED]; exact List.cons_ne_nil _ _)).1 10
      (by norm_num [UNCACHED])
  · have h := (C7_estimate_default
      { _defaultItemSize := 5, _length := 3, _sizes := [10, 1000, 12],
        _measuredOffsetIndex := 0, _offsets := [0, -1, -1] }
      (by norm_num [UNCACHED]; exact List.cons_ne_nil _ _)).2
      (by norm_num [UNCACHED])
    rw [h]
    norm_num [median, UNCACHED, List.insertionSort, List.orderedInsert]

/-- C8: `findIndex` scan bounds.  For a non-empty store and an in-range
`fromIndex`, with any distance: the forward scan (whose guard
`i < length - 1` keeps every scanned index at most `length - 2`) returns an
index at most `length - 1`; the backward scan returns an index at most
`fromIndex` (and at least 0, automatic on `Nat` as in the source guard
`i > 0`); and the result of `findIndex` is clamped into `[0, length - 1]`. -/
theorem C8_findIndex_bounds (c : Cache) (i : Nat) (d : ℚ)
    (hl : 0 < c._length) (hi : i ≤ c._length - 1) :
    findIndexFwd c d c._length i 0 ≤ c._length - 1 ∧
    findIndexBwd c d i 0 ≤ i ∧
    findIndex c i d ≤ c._length - 1 := by
  refine ⟨findIndexFwd_le c d c._length i 0 hi, findIndexBwd_le c d i 0, ?_⟩
  simp only [findIndex]
  exact Nat.min_le_right _ _

/-- Witness for C8 at a 3-item store, `fromIndex = 1`, distance 100. -/
theorem C8_findIndex_bounds_witness :
    findIndexFwd (initCache 3 10) 100 (initCache 3 10)._length 1 0
        ≤ (initCache 3 10)._length - 1 ∧
    findIndexBwd (initCache 3 10) 100 1 0 ≤ 1 ∧
    findIndex (initCache 3 10) 1 100 ≤ (initCache 3 10)._length - 1 :=
  C8_findIndex_bounds (initCache 3 10) 1 100 (by norm_num [initCache_eq])
    (by norm_num [initCache_eq])

/-- C9: Zero-distance query.  On a non-empty store whose effective sizes are
all positive, `findIndex fromIndex 0` returns `fromIndex` itself (the forward
loop stops at its first item, and the midpoint tie-break steps back). -/
theorem C9_zero_distance (c : Cache) (i : Nat) (hl : 0 < c._length)
    (hi : i ≤ c._length - 1)
    (hpos : ∀ k, k < c._length → 0 < getItemSize c k) :
    findIndex c i 0 = i := by
  obtain ⟨m, hm⟩ : ∃ m, c._length = m + 1 := ⟨c._length - 1, by omega⟩
  simp only [findIndex]
  rw [if_pos (le_refl (0:ℚ)), hm]
  simp only [findIndexFwd]
  split_ifs with h1 h2 h3
  · exact Nat.min_eq_left (by omega)
  · exfalso
    have hp := hpos i (by omega)
    linarith
  · exfalso
    have hp := hpos i (by omega)
    linarith
  · exact Nat.min_eq_left (by omega)

/-- Witness for C9 at a fresh 3-item store with default size 10,
`fromIndex = 1`. -/
theorem C9_zero_distance_witness : findIndex (initCache 3 10) 1 0 = 1 :=
  C9_zero_distance (initCache 3 10) 1 (by norm_num [initCache_eq])
    (by norm_num [initCache_eq])
    (by
      intro k hk
      rw [initCache_eq] at hk
      dsimp only at hk
      norm_num [initCache_eq, getItemSize, effSize, UNCACHED,
        List.getD_eq_getElem?_getD, List.getElem?_replicate, hk])

/-- C10: Tail-growth frame property.  Growing a well-formed store at the tail
(`isPrepend = false`, `newLength > length`) leaves the first `length` entries
of `sizes`, the first `length` entries of `offsets`, the watermark
`measuredOffsetIndex` and `defaultItemSize` unchanged, and every appended size
entry is `UNCACHED` — so previously cached offsets stay valid after a pure
tail append. -/
theorem C10_tail_growth_frame (c : Cache) (n : Nat)
    (hs : c._sizes.length = c._length) (ho : c._offsets.length = c._length)
    (hm : c._measuredOffsetIndex ≤ c._length - 1) (hn : c._length < n) :
    ((updateCacheLength c n false).2)._sizes.take c._length = c._sizes ∧
    ((updateCacheLength c n false).2)._offsets.take c._length = c._offsets ∧
    ((updateCacheLength c n false).2)._measuredOffsetIndex
        = c._measuredOffsetIndex ∧
    ((updateCacheLength c n false).2)._defaultItemSize = c._defaultItemSize ∧
    ∀ k, c._length ≤ k → k < n →
      ((updateCacheLength c n false).2)._sizes.getD k 0 = UNCACHED := by
  rw [updateCacheLength_add_noshift c n (by omega)]
  dsimp only
  refine ⟨?_, ?_, ?_, rfl, ?_⟩
  · rw [appendCache_sizes_false, ← hs, List.take_append_of_le_length le_rfl,
      List.take_length]
  · rw [appendCache_offsets, ← ho, List.take_append_of_le_length le_rfl,
      List.take_length]
  · exact Nat.min_eq_right (by omega)
  · intro k hk1 hk2
    rw [appendCache_sizes_false, List.getD_eq_getElem?_getD,
      List.getElem?_append]
    have h1 : ¬ k < c._sizes.length := by omega
    rw [if_neg h1, List.getElem?_replicate,
      if_pos (show k - c._sizes.length < n - c._length by omega)]
    rfl

/-- Witness for C10: growing a fresh 2-item store to 4 items at the tail. -/
theorem C10_tail_growth_frame_witness :
    ((updateCacheLength (initCache 2 10) 4 false).2)._sizes.take
        (initCache 2 10)._length = (initCache 2 10)._sizes ∧
    ((updateCacheLength (initCache 2 10) 4 false).2)._offsets.take
        (initCache 2 10)._length = (initCache 2 10)._offsets ∧
    ((updateCacheLength (initCache 2 10) 4 false).2)._measuredOffsetIndex
        = (initCache 2 10)._measuredOffsetIndex ∧
    ((updateCacheLength (initCache 2 10) 4 false).2)._defaultItemSize
        = (initCache 2 10)._defaultItemSize ∧
    ((updateCacheLength (initCache 2 10) 4 false).2)._sizes.getD 3 0
        = UNCACHED := by
  have h := C10_tail_growth_frame (initCache 2 10) 4
    (by norm_num [initCache_eq]) (by norm_num [initCache_eq])
    (by norm_num [initCache_eq]) (by norm_num [initCache_eq])
  exact ⟨h.1, h.2.1, h.2.2.1, h.2.2.2.1,
    h.2.2.2.2 3 (by norm_num [initCache_eq]) (by norm_num)⟩

end Virtua
